import Mathlib

/-!
Verification of the game core of the Carcassonne websocket server
(internal/game/board.go, internal/game/tile.go, internal/player/bot.go,
internal/room/room.go), shallowly embedded in Lean 4.

Go maps are embedded as association lists in insertion order; the places
where Go map iteration order is observable (candidate-position enumeration
in getPossiblePositions, the zero-meeple scan in PlaceMeeple) are either
parameterized by an explicit enumeration order or fixed to insertion order,
as noted on each definition.  Go `int` is embedded as `Int` (with `Int.tdiv`
/ `Int.tmod` for the truncated Go `/` and `%`), except for indices that are
provably non-negative in every flow, which use `Nat`.  Functions returning
`error` are embedded as `Except String`, with the literal Go message
strings; the Go originals perform all their mutations after every check, so
an `error` result corresponds to an unchanged board.
-/

namespace Carc

/-- TileEdge from tile.go: the terrain kind on one side of a tile. -/
inductive TileEdge where
  | Road
  | City
  | Field
deriving DecidableEq

/-- FeatureType from tile.go. -/
inductive FeatureType where
  | RoadFeature
  | CityFeature
  | MonasteryFeature
  | FieldFeature
deriving DecidableEq

/-- Direction from tile.go, in declaration order North=0, East=1, South=2, West=3. -/
inductive Direction where
  | North
  | East
  | South
  | West
deriving DecidableEq

/-- The integer value of a Direction constant (its iota value in the Go source). -/
def dirIndex : Direction → Int
  | .North => 0
  | .East => 1
  | .South => 2
  | .West => 3

/-- Feature from tile.go. -/
structure Feature where
  Type_ : FeatureType
  Edges : List Direction
  ID : Int
  HasShield : Bool
deriving DecidableEq

/-- Tile from tile.go. -/
structure Tile where
  ID : Int
  North : TileEdge
  East : TileEdge
  South : TileEdge
  West : TileEdge
  Features : List Feature
  HasShield : Bool
  HasMonastery : Bool
deriving DecidableEq

/-- Position from tile.go. -/
structure Position where
  X : Int
  Y : Int
deriving DecidableEq

/-- PlacedMeeple from tile.go. -/
structure PlacedMeeple where
  PlayerID : String
  FeatureID : Int
  Color : String
deriving DecidableEq

/-- PlacedTile from tile.go.  Rotation is in degrees, as in the source. -/
structure PlacedTile where
  Tile : Tile
  Position : Position
  Rotation : Int
  Meeples : List PlacedMeeple
deriving DecidableEq

/-- The Go `switch Direction(rotatedDir)` of GetEdge: index 0..3 selects the
edge field, any other value falls to the `default: return Field` branch. -/
def Tile.edgeOfIndex (t : Tile) (i : Int) : TileEdge :=
  if i = 0 then t.North
  else if i = 1 then t.East
  else if i = 2 then t.South
  else if i = 3 then t.West
  else TileEdge.Field

/-- GetEdge from tile.go: `rotatedDir := (int(dir) - pt.Rotation/90 + 4) % 4`
with truncated Go integer division and remainder, then the switch. -/
def PlacedTile.GetEdge (pt : PlacedTile) (dir : Direction) : TileEdge :=
  pt.Tile.edgeOfIndex ((dirIndex dir - pt.Rotation.tdiv 90 + 4).tmod 4)

/-- The tile map of the board (Go `map[Position]*PlacedTile`), kept in insertion
order with unique keys in every reachable state. -/
abbrev TileMap := List (Position × PlacedTile)

/-- Map lookup, first matching key. -/
def lookupTile : TileMap → Position → Option PlacedTile
  | [], _ => none
  | (q, t) :: rest, p => if q = p then some t else lookupTile rest p

/-- The `adjacentPositions` literal of CanPlaceAt: each orthogonal neighbor
with the direction from the candidate cell toward it and the opposite
direction back. -/
def adjacentPositions (pos : Position) : List (Position × Direction × Direction) :=
  [ (⟨pos.X, pos.Y - 1⟩, Direction.North, Direction.South),
    (⟨pos.X + 1, pos.Y⟩, Direction.East, Direction.West),
    (⟨pos.X, pos.Y + 1⟩, Direction.South, Direction.North),
    (⟨pos.X - 1, pos.Y⟩, Direction.West, Direction.East) ]

/-- The neighbor loop of CanPlaceAt: walks the adjacency list carrying the
`hasAdjacent` flag, returning false as soon as a facing edge of an occupied neighbor
mismatches, and `hasAdjacent` at the end. -/
def canPlaceLoop (m : TileMap) (pt : PlacedTile) :
    List (Position × Direction × Direction) → Bool → Bool
  | [], hasAdjacent => hasAdjacent
  | (q, d, o) :: rest, hasAdjacent =>
    match lookupTile m q with
    | some adjacentTile =>
      if pt.GetEdge d ≠ adjacentTile.GetEdge o then false
      else canPlaceLoop m pt rest true
    | none => canPlaceLoop m pt rest hasAdjacent

/-- CanPlaceAt from tile.go: occupied cells refuse, then the neighbor loop. -/
def PlacedTile.CanPlaceAt (pt : PlacedTile) (board : TileMap) (pos : Carc.Position) : Bool :=
  if (lookupTile board pos).isSome then false
  else canPlaceLoop board pt (adjacentPositions pos) false

/-- The starting tile (ID 0) of CreateStandardTileSet. -/
def startingTile : Tile :=
  { ID := 0, North := .Field, East := .Road, South := .Road, West := .Field,
    Features := [⟨.MonasteryFeature, [], 0, false⟩,
                 ⟨.RoadFeature, [.East, .South], 1, false⟩],
    HasShield := false, HasMonastery := true }

/-- A road tile (IDs 1..8) of CreateStandardTileSet. -/
def roadTile (i : Int) : Tile :=
  { ID := i, North := .Field, East := .Road, South := .Field, West := .Road,
    Features := [⟨.RoadFeature, [.East, .West], 0, false⟩,
                 ⟨.FieldFeature, [.North, .South], 1, false⟩],
    HasShield := false, HasMonastery := false }

/-- A city tile (IDs 9..16) of CreateStandardTileSet. -/
def cityTile (i : Int) : Tile :=
  { ID := i, North := .City, East := .Field, South := .Field, West := .Field,
    Features := [⟨.CityFeature, [.North], 0, false⟩,
                 ⟨.FieldFeature, [.East, .South, .West], 1, false⟩],
    HasShield := false, HasMonastery := false }

/-- A monastery tile (IDs 17..20) of CreateStandardTileSet. -/
def monasteryTile (i : Int) : Tile :=
  { ID := i, North := .Field, East := .Field, South := .Field, West := .Field,
    Features := [⟨.MonasteryFeature, [], 0, false⟩,
                 ⟨.FieldFeature, [.North, .East, .South, .West], 1, false⟩],
    HasShield := false, HasMonastery := true }

/-- CreateStandardTileSet from tile.go: the starting tile, 8 road tiles,
8 city tiles and 4 monastery tiles, in that order. -/
def CreateStandardTileSet : List Tile :=
  [startingTile]
    ++ (List.range 8).map (fun k => roadTile ((k : Int) + 1))
    ++ (List.range 8).map (fun k => cityTile ((k : Int) + 9))
    ++ (List.range 4).map (fun k => monasteryTile ((k : Int) + 17))

/-- Player from board.go. -/
structure Player where
  ID : String
  Name : String
  Color : String
  Meeples : Int
  IsBot : Bool
  Score : Int
deriving DecidableEq

/-- Board from board.go.  `CurrentPlayer` is a Go int that every flow keeps
non-negative, embedded as `Nat` (Go would panic on `% 0`; `Nat.mod` by zero
is never exercised by the claims, which assume at least one player). -/
structure Board where
  Tiles : TileMap
  TileDeck : List Tile
  CurrentTile : Option Tile
  Players : List Player
  CurrentPlayer : Nat
  GameStarted : Bool
  GameEnded : Bool
  Scores : List (String × Int)
deriving DecidableEq

/-- Go map assignment `scores[k] = v` on an association list. -/
def setScore : List (String × Int) → String → Int → List (String × Int)
  | [], k, v => [(k, v)]
  | (k0, v0) :: rest, k, v =>
    if k0 = k then (k, v) :: rest else (k0, v0) :: setScore rest k v

/-- NewBoard from board.go, after the random shuffle: the shuffled tile list
is passed explicitly as its head `t0` (seeded at the origin with rotation 0
and no meeples) and tail `rest` (the draw pile).  The shuffle itself is the
only randomness; every `(t0, rest)` splitting of a permutation of
CreateStandardTileSet is a possible outcome. -/
def NewBoard (t0 : Tile) (rest : List Tile) : Board :=
  { Tiles := [(⟨0, 0⟩, ⟨t0, ⟨0, 0⟩, 0, []⟩)],
    TileDeck := rest,
    CurrentTile := none,
    Players := [],
    CurrentPlayer := 0,
    GameStarted := false,
    GameEnded := false,
    Scores := [] }

/-- AddPlayer from board.go: capacity and started checks, then the player is
appended with 7 meeples and score 0. -/
def Board.AddPlayer (b : Board) (player : Player) : Except String Board :=
  if 5 ≤ b.Players.length then Except.error "maximum 5 players allowed"
  else if b.GameStarted then Except.error "game already started"
  else
    let p := { player with Meeples := 7, Score := 0 }
    Except.ok { b with Players := b.Players ++ [p], Scores := setScore b.Scores p.ID 0 }

/-- DrawNextTile from board.go: on an empty deck sets GameEnded and returns
false (the current tile is left as it was); otherwise pops the front of the
deck as the current tile. -/
def Board.DrawNextTile (b : Board) : Board × Bool :=
  match b.TileDeck with
  | [] => ({ b with GameEnded := true }, false)
  | t :: rest => ({ b with CurrentTile := some t, TileDeck := rest }, true)

/-- StartGame from board.go: needs 2 players and a not-yet-started game, then
marks started, resets the turn index and draws the first tile (the drawn
bool is ignored, as in the source). -/
def Board.StartGame (b : Board) : Except String Board :=
  if b.Players.length < 2 then Except.error "need at least 2 players to start"
  else if b.GameStarted then Except.error "game already started"
  else Except.ok (Board.DrawNextTile { b with GameStarted := true, CurrentPlayer := 0 }).1

/-- PlaceTile from board.go: requires a current tile and a CanPlaceAt-legal
placement; commits the placed tile and clears the current tile. -/
def Board.PlaceTile (b : Board) (pos : Carc.Position) (rotation : Int) : Except String Board :=
  match b.CurrentTile with
  | none => Except.error "no current tile to place"
  | some t =>
    let placedTile : PlacedTile := ⟨t, pos, rotation, []⟩
    if placedTile.CanPlaceAt b.Tiles pos then
      Except.ok { b with Tiles := b.Tiles ++ [(pos, placedTile)], CurrentTile := none }
    else Except.error "invalid tile placement"

/-- GetPlayer from board.go: first player in list order with the given ID. -/
def Board.GetPlayer (b : Board) (playerID : String) : Option Player :=
  b.Players.find? (fun p => p.ID == playerID)

/-- The in-place `player.Meeples--` of PlaceMeeple: decrements the meeple
count of the first player with the given ID (the entry GetPlayer aliases). -/
def decMeeples : List Player → String → List Player
  | [], _ => []
  | p :: rest, playerID =>
    if p.ID == playerID then { p with Meeples := p.Meeples - 1 } :: rest
    else p :: decMeeples rest playerID

/-- The zero-meeple scan of PlaceMeeple ("find the last placed tile"): the
first tile, in insertion order, whose meeple list is empty.  The Go original
scans in map iteration order; insertion order is one possible such order. -/
def findLastTile (m : TileMap) : Option (Carc.Position × PlacedTile) :=
  m.find? (fun pr => pr.2.Meeples.isEmpty)

/-- The in-place `lastTile.Meeples = append(...)` of PlaceMeeple: appends a
meeple to the first entry with the given key. -/
def addMeepleAt : TileMap → Carc.Position → PlacedMeeple → TileMap
  | [], _, _ => []
  | (q, t) :: rest, pos, mp =>
    if q = pos then (q, { t with Meeples := t.Meeples ++ [mp] }) :: rest
    else (q, t) :: addMeepleAt rest pos mp

/-- PlaceMeeple from board.go: player lookup, meeple-count check, zero-meeple
scan for the "last placed" tile, feature-ID upper-bound check
(`featureID >= len(...)` — no lower bound, a negative ID passes), occupied
check over the meeples of that tile, then the append and the decrement. -/
def Board.PlaceMeeple (b : Board) (playerID : String) (featureID : Int) : Except String Board :=
  match b.GetPlayer playerID with
  | none => Except.error "player not found"
  | some player =>
    if player.Meeples ≤ 0 then Except.error "no meeples available"
    else
      match findLastTile b.Tiles with
      | none => Except.error "no tile to place meeple on"
      | some (pos, lastTile) =>
        if (lastTile.Tile.Features.length : Int) ≤ featureID then
          Except.error "invalid feature ID"
        else if lastTile.Meeples.any (fun mp => mp.FeatureID == featureID) then
          Except.error "feature already occupied"
        else
          let meeple : PlacedMeeple := ⟨playerID, featureID, player.Color⟩
          Except.ok { b with Tiles := addMeepleAt b.Tiles pos meeple,
                             Players := decMeeples b.Players playerID }

/-- calculateFinalScores from board.go: copies the in-progress score of each
player into the Scores map. -/
def Board.calculateFinalScores (b : Board) : Board :=
  { b with Scores := b.Players.foldl (fun s p => setScore s p.ID p.Score) b.Scores }

/-- EndGame from board.go. -/
def Board.EndGame (b : Board) : Board :=
  Board.calculateFinalScores { b with GameEnded := true }

/-- NextTurn from board.go: advances the turn index modulo the player count,
then draws; a failed draw (empty deck) triggers EndGame. -/
def Board.NextTurn (b : Board) : Board :=
  let b1 := { b with CurrentPlayer := (b.CurrentPlayer + 1) % b.Players.length }
  let r := b1.DrawNextTile
  if r.2 then r.1 else r.1.EndGame

/-- PlacementOption from board.go. -/
structure PlacementOption where
  Position : Position
  Rotation : Int
deriving DecidableEq

/-- The four neighbor cells of getPossiblePositions, in its literal order. -/
def neighborCells (pos : Position) : List Position :=
  [⟨pos.X, pos.Y - 1⟩, ⟨pos.X + 1, pos.Y⟩, ⟨pos.X, pos.Y + 1⟩, ⟨pos.X - 1, pos.Y⟩]

/-- The membership of the `positions` set built by getPossiblePositions:
cells orthogonally adjacent to an occupied cell and themselves unoccupied.
getPossiblePositions returns these in Go map iteration order, which is
deliberately randomized by the runtime; `validEnum` below captures exactly
the lists it may return. -/
def possibleSet (b : Board) : List Position :=
  (b.Tiles.flatMap (fun pr => neighborCells pr.1)).filter
    (fun q => (lookupTile b.Tiles q).isNone)

/-- A list getPossiblePositions may return for board `b`: a duplicate-free
enumeration of exactly the possible-position set. -/
def validEnum (b : Board) (ord : List Position) : Prop :=
  ord.Nodup ∧ (∀ q ∈ ord, q ∈ possibleSet b) ∧ ∀ q ∈ possibleSet b, q ∈ ord

instance (b : Board) (ord : List Position) : Decidable (validEnum b ord) := by
  unfold validEnum; infer_instance

/-- The rotation loop `for rotation := 0; rotation < 360; rotation += 90`. -/
def rotationSteps : List Int := [0, 90, 180, 270]

/-- GetValidPlacements from board.go, parameterized by the order `ord` in
which getPossiblePositions happened to enumerate the candidate set: with no
current tile it returns the empty list; otherwise, for each candidate
position in that order and each rotation in ascending order, it keeps the
pairs CanPlaceAt accepts. -/
def Board.GetValidPlacements (b : Board) (ord : List Position) : List PlacementOption :=
  match b.CurrentTile with
  | none => []
  | some t =>
    ord.flatMap (fun pos =>
      rotationSteps.flatMap (fun rotation =>
        if PlacedTile.CanPlaceAt ⟨t, pos, rotation, []⟩ b.Tiles pos then
          [⟨pos, rotation⟩]
        else []))

/-- The effect of Room.RemovePlayer on board membership (room.go): refused once
the game has started or when the player is absent; otherwise the first
matching entry is removed from the player list of the board. -/
def removeFirstPlayer : List Player → String → List Player
  | [], _ => []
  | p :: rest, playerID =>
    if p.ID == playerID then rest else p :: removeFirstPlayer rest playerID

/-- Guarded removal, mirroring the checks of Room.RemovePlayer. -/
def Board.RemovePlayer (b : Board) (playerID : String) : Except String Board :=
  if b.GameStarted then Except.error "cannot leave during game"
  else if (b.GetPlayer playerID).isNone then Except.error "player not in room"
  else Except.ok { b with Players := removeFirstPlayer b.Players playerID }

/-- A fallible operation leaves the board unchanged on error: the Go
originals perform every mutation only after all checks have passed. -/
def applyExcept (b : Board) : Except String Board → Board
  | Except.ok b1 => b1
  | Except.error _ => b

/-- The operations a game history is built from: the Board mutators of
board.go plus the room-level player removal of room.go. -/
inductive Op where
  | addPlayer (p : Player)
  | removePlayer (playerID : String)
  | startGame
  | placeTile (pos : Position) (rotation : Int)
  | placeMeeple (playerID : String) (featureID : Int)
  | nextTurn
deriving DecidableEq

/-- Whether an operation is the room-level player removal. -/
def isRemoveOp : Op → Bool
  | .removePlayer _ => true
  | _ => false

/-- One step of a game history. -/
def Board.stepOp (b : Board) : Op → Board
  | .addPlayer p => applyExcept b (b.AddPlayer p)
  | .removePlayer playerID => applyExcept b (b.RemovePlayer playerID)
  | .startGame => applyExcept b b.StartGame
  | .placeTile pos rotation => applyExcept b (b.PlaceTile pos rotation)
  | .placeMeeple playerID featureID => applyExcept b (b.PlaceMeeple playerID featureID)
  | .nextTurn => b.NextTurn

/-- Running a whole history. -/
def Board.run (b : Board) (ops : List Op) : Board :=
  ops.foldl Board.stepOp b

/-- All meeples sitting on placed tiles, in board insertion order. -/
def allMeeples (m : TileMap) : List PlacedMeeple :=
  m.flatMap (fun pr => pr.2.Meeples)

/-- The number of meeples of the given player currently sitting on placed
tiles. -/
def markersOf (b : Board) (playerID : String) : Nat :=
  (allMeeples b.Tiles).countP (fun mp => mp.PlayerID == playerID)

/-- The remaining meeple count of the player, read through GetPlayer (0 when the
player is absent). -/
def remainingOf (b : Board) (playerID : String) : Int :=
  match b.GetPlayer playerID with
  | some p => p.Meeples
  | none => 0

/-- Total number of meeples sitting on placed tiles. -/
def totalMarkers (b : Board) : Nat :=
  (allMeeples b.Tiles).length

/-- Result discriminator for the board-valued operations. -/
def isOk : Except String Board → Bool
  | Except.ok _ => true
  | Except.error _ => false

/-- Bot from bot.go: a player plus a difficulty string. -/
structure Bot where
  Player : Player
  Difficulty : String
deriving DecidableEq

/-- NewBot from bot.go: a bot player with 7 meeples and difficulty "easy". -/
def NewBot (id name color : String) : Bot :=
  { Player := { ID := id, Name := name, Color := color,
                Meeples := 7, IsBot := true, Score := 0 },
    Difficulty := "easy" }

/-- SetDifficulty from bot.go: stores the string verbatim, no validation. -/
def Bot.SetDifficulty (b : Bot) (difficulty : String) : Bot :=
  { b with Difficulty := difficulty }

/-- GetStrategy from bot.go: the switch over the difficulty string, whose
default branch coincides with the "easy" tier. -/
def Bot.GetStrategy (b : Bot) : String :=
  if b.Difficulty == "easy" then "Random valid moves"
  else if b.Difficulty == "medium" then "Prioritize completing features"
  else if b.Difficulty == "hard" then "Advanced scoring optimization"
  else "Random valid moves"

/-- Room from room.go, with the identifier and the creation time (a UUID and
a wall-clock read in the source) passed in by the caller, and the member and
bot maps as association lists. -/
structure Room where
  ID : String
  Name : String
  MaxPlayers : Int
  CreatedBy : String
  Players : List (String × Player)
  Bots : List (String × Bot)
  Board : Board
  GameStarted : Bool
  GameEnded : Bool
deriving DecidableEq

/-- NewRoom from room.go: an out-of-range requested capacity (below 2 or
above 5) is silently replaced by 5; the fresh board is passed in (the source
builds it from a randomly shuffled tile set). -/
def NewRoom (id name createdBy : String) (maxPlayers : Int) (board : Board) : Room :=
  { ID := id, Name := name,
    MaxPlayers := if maxPlayers < 2 ∨ 5 < maxPlayers then 5 else maxPlayers,
    CreatedBy := createdBy,
    Players := [], Bots := [], Board := board,
    GameStarted := false, GameEnded := false }

/-- The fixed bot color palette of Room.AddBot. -/
def botColors : List String := ["red", "blue", "green", "yellow", "black"]

/-- The colors already taken by the humans and bots of the room. -/
def Room.usedColors (r : Room) : List String :=
  r.Players.map (fun pr => pr.2.Color) ++ r.Bots.map (fun pr => pr.2.Player.Color)

/-- The color scan of Room.AddBot: the first palette color not yet used
(`none` models the empty-string sentinel of the Go code). -/
def findFreeColor (used : List String) : Option String :=
  botColors.find? (fun c => !(used.contains c))

/-- Room.AddBot from room.go: started, creator and capacity checks, the
color scan, then NewBot + SetDifficulty — the difficulty string is never
validated — and the bot is added to the room and to the board (the AddPlayer error of
the board is discarded, as in the source).  The UUID of the fresh bot is
passed in as `botID`. -/
def Room.AddBot (r : Room) (botName difficulty creatorID botID : String) :
    Except String Room :=
  if r.GameStarted then Except.error "game already started"
  else if r.CreatedBy ≠ creatorID then Except.error "only room creator can add bots"
  else if r.MaxPlayers ≤ (r.Players.length : Int) + (r.Bots.length : Int) then
    Except.error "room is full"
  else
    match findFreeColor r.usedColors with
    | none => Except.error "no available colors for bot"
    | some color =>
      let bot := (NewBot botID botName color).SetDifficulty difficulty
      Except.ok { r with Bots := r.Bots ++ [(botID, bot)],
                         Board := applyExcept r.Board (r.Board.AddPlayer bot.Player) }

/-- Result discriminator for the room-valued operations. -/
def isOkRoom : Except String Room → Bool
  | Except.ok _ => true
  | Except.error _ => false

/-- A fallible room operation leaves the room unchanged on error. -/
def applyExceptRoom (r : Room) : Except String Room → Room
  | Except.ok r1 => r1
  | Except.error _ => r

/-- A human player fixture. -/
def alice : Player :=
  { ID := "p1", Name := "Alice", Color := "red", Meeples := 7, IsBot := false, Score := 0 }

/-- A second human player fixture. -/
def bob : Player :=
  { ID := "p2", Name := "Bob", Color := "blue", Meeples := 7, IsBot := false, Score := 0 }

/-- The tile of the C2 scenario: west edge City, east edge Road. -/
def westCityTile : Tile :=
  { ID := 100, North := .Field, East := .Road, South := .Field, West := .City,
    Features := [⟨.RoadFeature, [.East], 0, false⟩], HasShield := false,
    HasMonastery := false }

/-- Fresh 2-player board whose draw pile holds only the C2 scenario tile:
the shuffle put `startingTile` first and `westCityTile` next, two players
joined and the game started (drawing `westCityTile`). -/
def scenarioBoard : Board :=
  Board.run (NewBoard startingTile [westCityTile])
    [Op.addPlayer alice, Op.addPlayer bob, Op.startGame]

/-- Board for the C3 counterexample: origin seeded, a road tile drawn. -/
def c3Board : Board :=
  Board.run (NewBoard startingTile [roadTile 1])
    [Op.addPlayer alice, Op.addPlayer bob, Op.startGame]

/-- One enumeration order of the candidate positions of c3Board. -/
def c3ordA : List Position := [⟨0, -1⟩, ⟨1, 0⟩, ⟨0, 1⟩, ⟨-1, 0⟩]

/-- The reverse enumeration order. -/
def c3ordB : List Position := [⟨-1, 0⟩, ⟨0, 1⟩, ⟨1, 0⟩, ⟨0, -1⟩]

/-- Board for the C4 counterexample, one step before the last draw: two road
tiles were in the pile, the first was drawn and placed, so exactly one tile
remains. -/
def c4Board : Board :=
  Board.run (NewBoard startingTile [roadTile 1, roadTile 2])
    [Op.addPlayer alice, Op.addPlayer bob, Op.startGame, Op.placeTile ⟨1, 0⟩ 0]

/-- A board that has reached GameEnded through the ordinary flow: the single
pile tile was drawn, placed, and the following NextTurn exhausted the pile. -/
def endedBoard : Board :=
  Board.run (NewBoard startingTile [roadTile 1])
    [Op.addPlayer alice, Op.addPlayer bob, Op.startGame,
     Op.placeTile ⟨1, 0⟩ 0, Op.nextTurn]

/-- The history refuting the marker invariant: a meeple is placed before the
game starts (PlaceMeeple has no started-check), then the player leaves and
rejoins, resetting the meeple count to 7 while the placed marker stays. -/
def c6Board : Board :=
  Board.run (NewBoard startingTile (CreateStandardTileSet.drop 1))
    [Op.addPlayer alice, Op.placeMeeple "p1" 0, Op.removePlayer "p1", Op.addPlayer alice]

/-- Board for the C7 counterexample: one player joined, the origin tile has
no meeples, so a meeple placement is eligible. -/
def c7Board : Board :=
  Board.run (NewBoard startingTile (CreateStandardTileSet.drop 1)) [Op.addPlayer alice]

/-- Room for the C9 counterexample: fresh, created by Alice, capacity 4. -/
def c9Room : Room :=
  NewRoom "room-1" "lobby" "p1" 4 (NewBoard startingTile (CreateStandardTileSet.drop 1))

/-- A started 2-player board whose remaining pile covers a full round of
turns (used to witness the turn-wrap theorem). -/
def c8Board : Board :=
  Board.run (NewBoard startingTile [roadTile 1, roadTile 2, roadTile 3])
    [Op.addPlayer alice, Op.addPlayer bob, Op.startGame]

/-- NextTurn never changes the player list. -/
theorem NextTurn_Players (b : Board) : b.NextTurn.Players = b.Players := by
  obtain ⟨tiles, deck, ct, ps, cp, gs, ge, sc⟩ := b
  cases deck <;> rfl

/-- NextTurn never changes the tile map. -/
theorem NextTurn_Tiles (b : Board) : b.NextTurn.Tiles = b.Tiles := by
  obtain ⟨tiles, deck, ct, ps, cp, gs, ge, sc⟩ := b
  cases deck <;> rfl

/-- NextTurn moves the turn index to the next seat, modulo the player count. -/
theorem NextTurn_CurrentPlayer (b : Board) :
    b.NextTurn.CurrentPlayer = (b.CurrentPlayer + 1) % b.Players.length := by
  obtain ⟨tiles, deck, ct, ps, cp, gs, ge, sc⟩ := b
  cases deck <;> rfl

/-- Iterating NextTurn `n + 1` times advances the turn index by `n + 1`
modulo the player count. -/
theorem run_nextTurn_CurrentPlayer (n : Nat) :
    ∀ b : Board,
      (Board.run b (List.replicate (n + 1) Op.nextTurn)).CurrentPlayer
        = (b.CurrentPlayer + (n + 1)) % b.Players.length := by
  induction n with
  | zero =>
    intro b
    simp only [List.replicate, Board.run, List.foldl, Board.stepOp]
    exact NextTurn_CurrentPlayer b
  | succ k ih =>
    intro b
    have hstep :
        Board.run b (List.replicate (k + 2) Op.nextTurn)
          = Board.run b.NextTurn (List.replicate (k + 1) Op.nextTurn) := rfl
    rw [hstep, ih b.NextTurn, NextTurn_CurrentPlayer, NextTurn_Players,
      Nat.mod_add_mod]
    ring_nf

/-- Claim C8: on a started board with at least one player, a valid turn
index and a pile that lasts the whole round, applying NextTurn exactly
playerCount times returns the turn index to its starting value, and every
single step moves the index to (index + 1) mod playerCount. -/
theorem claim_C8_NextTurn_wrap :
    ∀ b : Board, b.GameStarted = true → 1 ≤ b.Players.length →
      b.CurrentPlayer < b.Players.length →
      b.Players.length ≤ b.TileDeck.length →
      (Board.run b (List.replicate b.Players.length Op.nextTurn)).CurrentPlayer
          = b.CurrentPlayer
        ∧ ∀ c : Board,
            c.NextTurn.CurrentPlayer = (c.CurrentPlayer + 1) % c.Players.length := by
  intro b _ hlen hcp _
  refine ⟨?_, NextTurn_CurrentPlayer⟩
  obtain ⟨n, hn⟩ : ∃ n, b.Players.length = n + 1 :=
    ⟨b.Players.length - 1, by omega⟩
  rw [hn, run_nextTurn_CurrentPlayer n b, hn]
  rw [Nat.add_mod_right]
  exact Nat.mod_eq_of_lt (by omega)

/-- Witness for claim C8 at a concrete started 2-player board. -/
theorem claim_C8_witness :
    (Board.run c8Board (List.replicate c8Board.Players.length Op.nextTurn)).CurrentPlayer
      = c8Board.CurrentPlayer :=
  (claim_C8_NextTurn_wrap c8Board (by decide) (by decide) (by decide) (by decide)).1

/-- Claim C10: NewRoom always yields a capacity in [2, 5]; a requested
capacity below 2 or above 5 is silently replaced by 5, so requesting 1
yields a room of capacity 5. -/
theorem claim_C10_NewRoom_capacity :
    ∀ (id name createdBy : String) (maxPlayers : Int) (board : Board),
      (2 ≤ (NewRoom id name createdBy maxPlayers board).MaxPlayers
          ∧ (NewRoom id name createdBy maxPlayers board).MaxPlayers ≤ 5)
        ∧ (NewRoom id name createdBy maxPlayers board).MaxPlayers
            = (if maxPlayers < 2 ∨ 5 < maxPlayers then 5 else maxPlayers)
        ∧ (NewRoom id name createdBy 1 board).MaxPlayers = 5 := by
  intro id name createdBy mp board
  refine ⟨?_, rfl, by norm_num [NewRoom]⟩
  show 2 ≤ (if mp < 2 ∨ 5 < mp then 5 else mp) ∧ (if mp < 2 ∨ 5 < mp then 5 else mp) ≤ 5
  split
  · omega
  · next h => omega

/-- Claim C2: for a placed tile whose rotation is one of 0/90/180/270,
GetEdge returns the edge of the underlying definition at direction index
(d - rotation/90) mod 4 — rotation is applied virtually; and the spec
scenario: on a fresh 2-player board whose origin tile has a road on its
east face, placing a west-City/east-Road tile directly east of the origin
fails at rotation 0 and succeeds at rotation 180. -/
theorem claim_C2_GetEdge_virtual :
    (∀ pt : PlacedTile,
        pt.Rotation = 0 ∨ pt.Rotation = 90 ∨ pt.Rotation = 180 ∨ pt.Rotation = 270 →
        ∀ d : Direction,
          pt.GetEdge d = pt.Tile.edgeOfIndex ((dirIndex d - pt.Rotation.tdiv 90).emod 4))
      ∧ scenarioBoard.PlaceTile ⟨1, 0⟩ 0 = Except.error "invalid tile placement"
      ∧ isOk (scenarioBoard.PlaceTile ⟨1, 0⟩ 180) = true := by
  refine ⟨?_, rfl, rfl⟩
  rintro pt (h | h | h | h) d <;> cases d <;>
    (simp only [PlacedTile.GetEdge, dirIndex, h]; congr 1)

/-- Witness for claim C2: the west face of a tile rotated 180 degrees is
read from the east-defined edge (index (3 - 2) mod 4 = 1). -/
theorem claim_C2_witness :
    (PlacedTile.mk westCityTile ⟨1, 0⟩ 180 []).GetEdge Direction.West
      = (PlacedTile.mk westCityTile ⟨1, 0⟩ 180 []).Tile.edgeOfIndex
          ((dirIndex Direction.West - (180 : Int).tdiv 90).emod 4) :=
  claim_C2_GetEdge_virtual.1 (PlacedTile.mk westCityTile ⟨1, 0⟩ 180 [])
    (Or.inr (Or.inr (Or.inl rfl))) Direction.West

/-- Claim C4 counterexample: popping the final tile of the pile does not
transition the board to Ended — the flag is only set by a draw attempted on
an already empty pile — and the tile drawn last can still be placed. -/
theorem claim_C4_counterexample :
    c4Board.TileDeck.length = 1
      ∧ c4Board.NextTurn.GameEnded = false
      ∧ isOk (c4Board.NextTurn.PlaceTile ⟨2, 0⟩ 0) = true :=
  ⟨rfl, by decide, by decide⟩

/-- Claim C4 (amended): a draw attempted on an empty pile sets GameEnded,
reports failure and leaves the current tile unchanged; when no current tile
is set (the normal state after the previous placement), every subsequent
PlaceTile on the ended board fails with the no-current-tile error. -/
theorem claim_C4_amended :
    ∀ (b : Board) (pos : Carc.Position) (rotation : Int), b.TileDeck = [] →
      (b.DrawNextTile.1.GameEnded = true
          ∧ b.DrawNextTile.2 = false
          ∧ b.DrawNextTile.1.CurrentTile = b.CurrentTile)
        ∧ (b.CurrentTile = none →
            b.DrawNextTile.1.PlaceTile pos rotation
              = Except.error "no current tile to place") := by
  intro b pos rotation hdeck
  obtain ⟨tiles, deck, ct, ps, cp, gs, ge, sc⟩ := b
  cases hdeck
  refine ⟨⟨rfl, rfl, rfl⟩, ?_⟩
  intro hct
  cases hct
  rfl

/-- Witness for claim C4 at the concrete exhausted board. -/
theorem claim_C4_witness :
    (endedBoard.DrawNextTile.1.GameEnded = true
        ∧ endedBoard.DrawNextTile.2 = false
        ∧ endedBoard.DrawNextTile.1.CurrentTile = endedBoard.CurrentTile)
      ∧ (endedBoard.CurrentTile = none →
          endedBoard.DrawNextTile.1.PlaceTile ⟨5, 5⟩ 0
            = Except.error "no current tile to place") :=
  claim_C4_amended endedBoard ⟨5, 5⟩ 0 (by decide)

/-- Claim C5: the code does not freeze an Ended board.  On the concrete
board reached through the ordinary flow (all tiles drawn and placed, pile
exhausted by the final NextTurn), PlaceMeeple still succeeds, appending a
marker and decrementing the meeple count of the acting player even though the
game has ended. -/
theorem claim_C5_ended_board_still_mutable :
    endedBoard.GameEnded = true
      ∧ isOk (endedBoard.PlaceMeeple "p2" 0) = true
      ∧ totalMarkers (applyExcept endedBoard (endedBoard.PlaceMeeple "p2" 0))
          = totalMarkers endedBoard + 1
      ∧ remainingOf (applyExcept endedBoard (endedBoard.PlaceMeeple "p2" 0)) "p2"
          = remainingOf endedBoard "p2" - 1 :=
  ⟨rfl, by decide, by decide, by decide⟩

/-- Claim C3 counterexample: getPossiblePositions reads Go maps, whose
iteration order the runtime randomizes; two runs of GetValidPlacements on
the identical board and tile may therefore enumerate the candidate set in
different orders and return differently ordered results.  Both orders shown
are legitimate enumerations of the candidate set of the same board. -/
theorem claim_C3_counterexample :
    validEnum c3Board c3ordA
      ∧ validEnum c3Board c3ordB
      ∧ c3Board.GetValidPlacements c3ordA ≠ c3Board.GetValidPlacements c3ordB :=
  ⟨by decide, by decide, by decide⟩

/-- Claim C3 (amended): two runs of GetValidPlacements on the identical
board and tile return the same placements up to order — the result is a
permutation determined by the candidate-enumeration order, not an identical
sequence. -/
theorem claim_C3_amended :
    ∀ (b : Board) (o1 o2 : List Carc.Position),
      validEnum b o1 → validEnum b o2 →
      (b.GetValidPlacements o1).Perm (b.GetValidPlacements o2) := by
  intro b o1 o2 h1 h2
  obtain ⟨hn1, ha1, hb1⟩ := h1
  obtain ⟨hn2, ha2, hb2⟩ := h2
  have hperm : o1.Perm o2 := by
    refine (List.perm_ext_iff_of_nodup hn1 hn2).mpr fun a => ⟨?_, ?_⟩
    · intro ha; exact hb2 a (ha1 a ha)
    · intro ha; exact hb1 a (ha2 a ha)
  unfold Board.GetValidPlacements
  cases b.CurrentTile
  · exact List.Perm.refl _
  · exact hperm.flatMap_right _

/-- Witness for claim C3 at the two concrete enumeration orders. -/
theorem claim_C3_witness :
    (c3Board.GetValidPlacements c3ordA).Perm (c3Board.GetValidPlacements c3ordB) :=
  claim_C3_amended c3Board c3ordA c3ordB (by decide) (by decide)

/-- The neighbor loop of CanPlaceAt returns true exactly when the carried
flag is (or becomes) true — some listed cell is occupied — and every
facing edges of every occupied listed cell agree. -/
theorem canPlaceLoop_spec (m : TileMap) (pt : PlacedTile)
    (l : List (Carc.Position × Direction × Direction)) (acc : Bool) :
    canPlaceLoop m pt l acc = true ↔
      ((acc = true ∨ ∃ e ∈ l, (lookupTile m e.1).isSome = true)
        ∧ ∀ e ∈ l, ∀ t, lookupTile m e.1 = some t →
            pt.GetEdge e.2.1 = t.GetEdge e.2.2) := by
  induction l generalizing acc with
  | nil => simp [canPlaceLoop]
  | cons hd tl ih =>
    obtain ⟨q, d, o⟩ := hd
    simp only [canPlaceLoop]
    cases hq : lookupTile m q with
    | none =>
      rw [ih]
      constructor
      · rintro ⟨h1, h2⟩
        constructor
        · rcases h1 with h1 | ⟨e, he, hs⟩
          · exact Or.inl h1
          · exact Or.inr ⟨e, List.mem_cons_of_mem _ he, hs⟩
        · intro e hmem t1 ht1
          rcases List.mem_cons.mp hmem with rfl | hmem2
          · exact absurd ht1 (by simp [hq])
          · exact h2 e hmem2 t1 ht1
      · rintro ⟨h1, h2⟩
        constructor
        · rcases h1 with h1 | ⟨e, he, hs⟩
          · exact Or.inl h1
          · rcases List.mem_cons.mp he with rfl | he2
            · simp [hq] at hs
            · exact Or.inr ⟨e, he2, hs⟩
        · exact fun e hmem t1 ht1 => h2 e (List.mem_cons_of_mem _ hmem) t1 ht1
    | some t =>
      dsimp only
      by_cases he : pt.GetEdge d = t.GetEdge o
      · rw [if_neg (not_not_intro he)]
        rw [ih]
        constructor
        · rintro ⟨_, h2⟩
          constructor
          · exact Or.inr ⟨(q, d, o), List.mem_cons_self _ _, by simp [hq]⟩
          · intro e hmem t1 ht1
            rcases List.mem_cons.mp hmem with rfl | hmem2
            · have ht2 : t = t1 := by simpa [hq] using ht1
              subst ht2
              exact he
            · exact h2 e hmem2 t1 ht1
        · rintro ⟨_, h2⟩
          exact ⟨Or.inl rfl,
            fun e hmem t1 ht1 => h2 e (List.mem_cons_of_mem _ hmem) t1 ht1⟩
      · rw [if_pos he]
        constructor
        · intro hfalse
          exact absurd hfalse (by simp)
        · rintro ⟨_, h2⟩
          exact absurd (h2 (q, d, o) (List.mem_cons_self _ _) t (by simp [hq])) he

/-- Claim C1: CanPlaceAt holds exactly when the target cell is free, at
least one of the four orthogonal neighbor cells is occupied, and each
the facing edge of each occupied orthogonal neighbor equals the edge of the
candidate tile facing it — so an occupied target cell refuses, an isolated cell refuses,
and a single mismatching pair refuses the whole placement. -/
theorem claim_C1_CanPlaceAt_spec :
    ∀ (board : TileMap) (pt : PlacedTile) (pos : Carc.Position),
      pt.CanPlaceAt board pos = true ↔
        (lookupTile board pos = none
          ∧ (∃ e ∈ adjacentPositions pos, (lookupTile board e.1).isSome = true)
          ∧ ∀ e ∈ adjacentPositions pos, ∀ t, lookupTile board e.1 = some t →
              pt.GetEdge e.2.1 = t.GetEdge e.2.2) := by
  intro board pt pos
  unfold PlacedTile.CanPlaceAt
  cases h : lookupTile board pos with
  | some t => simp [h]
  | none =>
    simp only [h, Option.isSome_none, Bool.false_eq_true, if_neg, ite_false]
    rw [canPlaceLoop_spec]
    simp

/-- Witness for claim C1: the characterization evaluated on the concrete
scenario board at the cell east of the origin. -/
theorem claim_C1_witness :
    (PlacedTile.mk westCityTile ⟨1, 0⟩ 180 []).CanPlaceAt scenarioBoard.Tiles ⟨1, 0⟩ = true ↔
      (lookupTile scenarioBoard.Tiles ⟨1, 0⟩ = none
        ∧ (∃ e ∈ adjacentPositions ⟨1, 0⟩,
            (lookupTile scenarioBoard.Tiles e.1).isSome = true)
        ∧ ∀ e ∈ adjacentPositions ⟨1, 0⟩, ∀ t,
            lookupTile scenarioBoard.Tiles e.1 = some t →
              (PlacedTile.mk westCityTile ⟨1, 0⟩ 180 []).GetEdge e.2.1
                = t.GetEdge e.2.2) :=
  claim_C1_CanPlaceAt_spec scenarioBoard.Tiles
    (PlacedTile.mk westCityTile ⟨1, 0⟩ 180 []) ⟨1, 0⟩

/-- Decrementing through `PlaceMeeple` updates exactly the entry `GetPlayer`
aliases: afterwards the first matching player holds one meeple fewer. -/
theorem find?_decMeeples_self (ps : List Player) (pid : String) (p : Player)
    (h : ps.find? (fun q => q.ID == pid) = some p) :
    (decMeeples ps pid).find? (fun q => q.ID == pid)
      = some { p with Meeples := p.Meeples - 1 } := by
  induction ps with
  | nil => simp at h
  | cons hd tl ih =>
    by_cases hh : (hd.ID == pid)
    · simp only [List.find?_cons, hh] at h
      injection h with h
      subst h
      simp [decMeeples, hh, List.find?_cons]
    · simp only [List.find?_cons, hh] at h
      simp only [decMeeples, hh, Bool.false_eq_true, ite_false, List.find?_cons]
      exact ih h

/-- The decrement does not disturb lookups of any other player ID. -/
theorem find?_decMeeples_other (ps : List Player) (pid pid2 : String)
    (hne : pid2 ≠ pid) :
    (decMeeples ps pid).find? (fun q => q.ID == pid2)
      = ps.find? (fun q => q.ID == pid2) := by
  induction ps with
  | nil => rfl
  | cons hd tl ih =>
    by_cases hh : (hd.ID == pid)
    · have hh2 : (hd.ID == pid2) = false := by
        have heq : hd.ID = pid := by simpa [beq_iff_eq] using hh
        rw [heq]
        exact beq_eq_false_iff_ne.mpr (Ne.symm hne)
      simp only [decMeeples, if_pos hh, ite_true, List.find?_cons, hh2]
    · simp only [decMeeples, if_neg hh, ite_false]
      by_cases hh2 : (hd.ID == pid2)
      · simp only [List.find?_cons, hh2]
      · simp only [List.find?_cons, hh2, Bool.false_eq_true]
        exact ih

/-- What the zero-meeple scan returns is an entry of the map, and its tile
carries no meeples. -/
theorem findLastTile_mem (m : TileMap) (pr : Carc.Position × PlacedTile)
    (h : findLastTile m = some pr) :
    pr ∈ m ∧ pr.2.Meeples = [] := by
  refine ⟨List.mem_of_find?_eq_some h, ?_⟩
  have h2 := List.find?_some h
  simpa [List.isEmpty_iff] using h2

/-- Appending a meeple to the entry at an existing key adds exactly that
meeple to the meeple multiset of the board. -/
theorem allMeeples_addMeepleAt (m : TileMap) (pos : Carc.Position)
    (mp : PlacedMeeple) (hkey : ∃ pr ∈ m, pr.1 = pos) :
    (allMeeples (addMeepleAt m pos mp)).Perm (mp :: allMeeples m) := by
  induction m with
  | nil => simp at hkey
  | cons hd tl ih =>
    obtain ⟨q, t⟩ := hd
    by_cases hq : q = pos
    · subst hq
      simp only [addMeepleAt, if_pos rfl, ite_true, allMeeples, List.flatMap_cons,
        List.append_assoc, List.singleton_append]
      exact List.perm_middle
    · have hkey2 : ∃ pr ∈ tl, pr.1 = pos := by
        rcases hkey with ⟨pr, hmem, hp⟩
        rcases List.mem_cons.mp hmem with rfl | hmem2
        · exact absurd hp hq
        · exact ⟨pr, hmem2, hp⟩
      simp only [addMeepleAt, if_neg hq, ite_false, allMeeples, List.flatMap_cons]
      exact (List.Perm.append_left t.Meeples (ih hkey2)).trans List.perm_middle

/-- Successful PlaceMeeple runs pass every check and produce exactly the
meeple-append and meeple-count decrement. -/
theorem PlaceMeeple_ok_shape (b : Board) (pid : String) (fid : Int) (b1 : Board)
    (h : b.PlaceMeeple pid fid = Except.ok b1) :
    ∃ player pr,
      b.GetPlayer pid = some player
        ∧ ¬ player.Meeples ≤ 0
        ∧ findLastTile b.Tiles = some pr
        ∧ ¬ (pr.2.Tile.Features.length : Int) ≤ fid
        ∧ b1 = { b with Tiles := addMeepleAt b.Tiles pr.1 ⟨pid, fid, player.Color⟩,
                        Players := decMeeples b.Players pid } := by
  unfold Board.PlaceMeeple at h
  split at h
  · exact absurd h (by simp)
  · next player hp =>
    split at h
    · exact absurd h (by simp)
    · next hm =>
      split at h
      · exact absurd h (by simp)
      · next pos lastTile hf =>
        split at h
        · exact absurd h (by simp)
        · next hlen =>
          split at h
          · exact absurd h (by simp)
          · injection h with h
            exact ⟨player, (pos, lastTile), hp, hm, hf, hlen, h.symm⟩

/-- Numeric effect of a successful PlaceMeeple: the count of the acting player
drops by one and exactly one marker is added to the board. -/
theorem PlaceMeeple_ok_effects (b : Board) (pid : String) (fid : Int) (b1 : Board)
    (h : b.PlaceMeeple pid fid = Except.ok b1) :
    remainingOf b1 pid = remainingOf b pid - 1
      ∧ totalMarkers b1 = totalMarkers b + 1
      ∧ ∀ pid2, pid2 ≠ pid → remainingOf b1 pid2 = remainingOf b pid2
      ∧ markersOf b1 pid2 = markersOf b pid2 := by
  obtain ⟨player, pr, hp, hm, hf, hlen, hb1⟩ := PlaceMeeple_ok_shape b pid fid b1 h
  have hkey : ∃ e ∈ b.Tiles, e.1 = pr.1 := ⟨pr, (findLastTile_mem _ _ hf).1, rfl⟩
  have hperm := allMeeples_addMeepleAt b.Tiles pr.1 ⟨pid, fid, player.Color⟩ hkey
  subst hb1
  refine ⟨?_, ?_, ?_⟩
  · unfold remainingOf Board.GetPlayer at *
    rw [find?_decMeeples_self b.Players pid player hp]
    rw [hp]
  · unfold totalMarkers
    rw [hperm.length_eq]
    rfl
  · intro pid2 hne
    constructor
    · unfold remainingOf Board.GetPlayer
      rw [find?_decMeeples_other b.Players pid pid2 hne]
    · unfold markersOf
      rw [hperm.countP_eq]
      simp [List.countP_cons, beq_eq_false_iff_ne.mpr (Ne.symm hne)]

/-- Per-player marker effect of a successful PlaceMeeple. -/
theorem PlaceMeeple_ok_markers_self (b : Board) (pid : String) (fid : Int) (b1 : Board)
    (h : b.PlaceMeeple pid fid = Except.ok b1) :
    markersOf b1 pid = markersOf b pid + 1 := by
  obtain ⟨player, pr, hp, hm, hf, hlen, hb1⟩ := PlaceMeeple_ok_shape b pid fid b1 h
  have hkey : ∃ e ∈ b.Tiles, e.1 = pr.1 := ⟨pr, (findLastTile_mem _ _ hf).1, rfl⟩
  have hperm := allMeeples_addMeepleAt b.Tiles pr.1 ⟨pid, fid, player.Color⟩ hkey
  subst hb1
  unfold markersOf
  rw [hperm.countP_eq]
  simp [List.countP_cons]

/-- Successful AddPlayer appends the 7-meeple player and keeps the tiles. -/
theorem AddPlayer_ok_shape (b : Board) (p : Player) (b1 : Board)
    (h : b.AddPlayer p = Except.ok b1) :
    b1.Players = b.Players ++ [{ p with Meeples := 7, Score := 0 }]
      ∧ b1.Tiles = b.Tiles := by
  unfold Board.AddPlayer at h
  split at h
  · exact absurd h (by simp)
  · split at h
    · exact absurd h (by simp)
    · injection h with h
      subst h
      exact ⟨rfl, rfl⟩

/-- DrawNextTile touches neither the player list nor the tile map. -/
theorem DrawNextTile_fields (b : Board) :
    b.DrawNextTile.1.Players = b.Players ∧ b.DrawNextTile.1.Tiles = b.Tiles := by
  obtain ⟨tiles, deck, ct, ps, cp, gs, ge, sc⟩ := b
  cases deck <;> exact ⟨rfl, rfl⟩

/-- Successful StartGame touches neither the player list nor the tile map. -/
theorem StartGame_ok_shape (b : Board) (b1 : Board)
    (h : b.StartGame = Except.ok b1) :
    b1.Players = b.Players ∧ b1.Tiles = b.Tiles := by
  unfold Board.StartGame at h
  split at h
  · exact absurd h (by simp)
  · split at h
    · exact absurd h (by simp)
    · injection h with h
      subst h
      exact DrawNextTile_fields _

/-- Successful PlaceTile keeps the players and appends a meeple-free tile. -/
theorem PlaceTile_ok_shape (b : Board) (pos : Carc.Position) (rotation : Int)
    (b1 : Board) (h : b.PlaceTile pos rotation = Except.ok b1) :
    ∃ t, b1.Players = b.Players
      ∧ b1.Tiles = b.Tiles ++ [(pos, ⟨t, pos, rotation, []⟩)] := by
  unfold Board.PlaceTile at h
  split at h
  · exact absurd h (by simp)
  · rename_i t0 ht
    dsimp only at h
    split at h
    · injection h with h
      subst h
      exact ⟨t0, rfl, rfl⟩
    · exact absurd h (by simp)

/-- The per-player marker invariant: remaining count plus markers on the
board stays within 7, and absent players own no markers. -/
def MarkerInv (b : Board) : Prop :=
  ∀ pid : String,
    remainingOf b pid + (markersOf b pid : Int) ≤ 7
      ∧ (b.GetPlayer pid = none → markersOf b pid = 0)

/-- The invariant transports along any step that preserves player lookups
and marker counts. -/
theorem MarkerInv_transport (b b1 : Board)
    (hp : ∀ pid, b1.GetPlayer pid = b.GetPlayer pid)
    (hm : ∀ pid, markersOf b1 pid = markersOf b pid)
    (h : MarkerInv b) : MarkerInv b1 := by
  intro pid
  obtain ⟨h1, h2⟩ := h pid
  have hr : remainingOf b1 pid = remainingOf b pid := by
    unfold remainingOf
    rw [hp]
  refine ⟨?_, ?_⟩
  · rw [hr, hm]
    exact h1
  · intro hnone
    rw [hm]
    exact h2 (by rw [← hp]; exact hnone)

/-- AddPlayer preserves the marker invariant. -/
theorem MarkerInv_addPlayer (b : Board) (p : Player) (h : MarkerInv b) :
    MarkerInv (applyExcept b (b.AddPlayer p)) := by
  cases hr : b.AddPlayer p with
  | error e => exact h
  | ok b1 =>
    show MarkerInv b1
    obtain ⟨hps, hts⟩ := AddPlayer_ok_shape b p b1 hr
    intro pid
    obtain ⟨h1, h2⟩ := h pid
    have hmk : markersOf b1 pid = markersOf b pid := by
      unfold markersOf
      rw [hts]
    have hgp : b1.GetPlayer pid
        = (b.GetPlayer pid).or
            (if ({ p with Meeples := 7, Score := 0 } : Player).ID == pid
              then some { p with Meeples := 7, Score := 0 } else none) := by
      unfold Board.GetPlayer
      rw [hps, List.find?_append]
      congr 1
      simp
    cases hq : b.GetPlayer pid with
    | some q =>
      have hb1 : b1.GetPlayer pid = some q := by
        rw [hgp, hq]
        rfl
      have hr1 : remainingOf b1 pid = remainingOf b pid := by
        unfold remainingOf
        rw [hb1, hq]
      refine ⟨by rw [hr1, hmk]; exact h1, ?_⟩
      intro hnone
      rw [hb1] at hnone
      cases hnone
    | none =>
      have hm0 : markersOf b pid = 0 := h2 hq
      by_cases hid : (p.ID == pid)
      · have hb1 : b1.GetPlayer pid = some { p with Meeples := 7, Score := 0 } := by
          rw [hgp, hq]
          simp [hid]
        refine ⟨?_, ?_⟩
        · unfold remainingOf
          rw [hb1, hmk, hm0]
          norm_num
        · intro hnone
          rw [hb1] at hnone
          cases hnone
      · have hb1 : b1.GetPlayer pid = none := by
          rw [hgp, hq]
          simp [hid]
        refine ⟨?_, fun _ => by rw [hmk]; exact hm0⟩
        unfold remainingOf
        rw [hb1, hmk, hm0]
        norm_num
        -- the absent case: 0 + 0 ≤ 7
    -- end cases

/-- StartGame preserves the marker invariant. -/
theorem MarkerInv_startGame (b : Board) (h : MarkerInv b) :
    MarkerInv (applyExcept b b.StartGame) := by
  cases hr : b.StartGame with
  | error e => exact h
  | ok b1 =>
    show MarkerInv b1
    obtain ⟨hps, hts⟩ := StartGame_ok_shape b b1 hr
    refine MarkerInv_transport b b1 (fun pid => ?_) (fun pid => ?_) h
    · unfold Board.GetPlayer
      rw [hps]
    · unfold markersOf
      rw [hts]

/-- PlaceTile preserves the marker invariant: the committed tile has no
meeples. -/
theorem MarkerInv_placeTile (b : Board) (pos : Carc.Position) (rotation : Int)
    (h : MarkerInv b) : MarkerInv (applyExcept b (b.PlaceTile pos rotation)) := by
  cases hr : b.PlaceTile pos rotation with
  | error e => exact h
  | ok b1 =>
    show MarkerInv b1
    obtain ⟨t, hps, hts⟩ := PlaceTile_ok_shape b pos rotation b1 hr
    refine MarkerInv_transport b b1 (fun pid => ?_) (fun pid => ?_) h
    · unfold Board.GetPlayer
      rw [hps]
    · unfold markersOf allMeeples
      rw [hts]
      simp

/-- PlaceMeeple preserves the marker invariant: one meeple moves from the
hand of the player onto the board. -/
theorem MarkerInv_placeMeeple (b : Board) (pid0 : String) (fid : Int)
    (h : MarkerInv b) : MarkerInv (applyExcept b (b.PlaceMeeple pid0 fid)) := by
  cases hr : b.PlaceMeeple pid0 fid with
  | error e => exact h
  | ok b1 =>
    show MarkerInv b1
    obtain ⟨hrem, htot, hother⟩ := PlaceMeeple_ok_effects b pid0 fid b1 hr
    have hself := PlaceMeeple_ok_markers_self b pid0 fid b1 hr
    obtain ⟨player, pr, hp, hm, hf, hlen, hb1⟩ := PlaceMeeple_ok_shape b pid0 fid b1 hr
    intro pid
    obtain ⟨h1, h2⟩ := h pid
    by_cases hpe : pid = pid0
    · subst hpe
      refine ⟨?_, ?_⟩
      · rw [hrem, hself]
        have hrb : remainingOf b pid = player.Meeples := by
          unfold remainingOf
          rw [hp]
        push_cast
        omega
      · intro hnone
        have hsome : b1.GetPlayer pid = some { player with Meeples := player.Meeples - 1 } := by
          rw [hb1]
          exact find?_decMeeples_self b.Players pid player hp
        rw [hsome] at hnone
        cases hnone
    · obtain ⟨hr2, hm2⟩ := hother pid hpe
      refine ⟨by rw [hr2, hm2]; exact h1, ?_⟩
      intro hnone
      rw [hm2]
      apply h2
      have hsame : b1.GetPlayer pid = b.GetPlayer pid := by
        rw [hb1]
        unfold Board.GetPlayer
        exact find?_decMeeples_other b.Players pid0 pid hpe
      rw [← hsame]
      exact hnone

/-- NextTurn preserves the marker invariant. -/
theorem MarkerInv_nextTurn (b : Board) (h : MarkerInv b) : MarkerInv b.NextTurn := by
  refine MarkerInv_transport b b.NextTurn (fun pid => ?_) (fun pid => ?_) h
  · unfold Board.GetPlayer
    rw [NextTurn_Players]
  · unfold markersOf
    rw [NextTurn_Tiles]

/-- Every history step other than the room-level removal preserves the
marker invariant. -/
theorem stepOp_MarkerInv (b : Board) (op : Op) (hop : isRemoveOp op = false)
    (h : MarkerInv b) : MarkerInv (b.stepOp op) := by
  cases op with
  | addPlayer p => exact MarkerInv_addPlayer b p h
  | removePlayer s => exact absurd hop (by simp [isRemoveOp])
  | startGame => exact MarkerInv_startGame b h
  | placeTile pos rotation => exact MarkerInv_placeTile b pos rotation h
  | placeMeeple pid fid => exact MarkerInv_placeMeeple b pid fid h
  | nextTurn => exact MarkerInv_nextTurn b h

/-- Removal-free histories preserve the marker invariant. -/
theorem run_MarkerInv (ops : List Op) :
    ∀ b : Board, (∀ op ∈ ops, isRemoveOp op = false) → MarkerInv b →
      MarkerInv (Board.run b ops) := by
  induction ops with
  | nil => exact fun b _ h => h
  | cons hd tl ih =>
    intro b hops h
    exact ih (b.stepOp hd)
      (fun op hmem => hops op (List.mem_cons_of_mem _ hmem))
      (stepOp_MarkerInv b hd (hops hd (List.mem_cons_self _ _)) h)

/-- A fresh board satisfies the marker invariant. -/
theorem MarkerInv_newBoard (t0 : Tile) (rest : List Tile) :
    MarkerInv (NewBoard t0 rest) := by
  intro pid
  refine ⟨?_, fun _ => rfl⟩
  have h1 : remainingOf (NewBoard t0 rest) pid = 0 := rfl
  have h2 : markersOf (NewBoard t0 rest) pid = 0 := rfl
  rw [h1, h2]
  norm_num

/-- Claim C6 counterexample: the marker bound is violated on a reachable
history.  PlaceMeeple has no started-game guard, so a meeple can be placed
before the game starts; removing that player (legal while unstarted) and
re-adding the same ID resets the count to 7 while the placed marker stays,
reaching remaining + on-board = 8. -/
theorem claim_C6_counterexample :
    7 < remainingOf c6Board "p1" + (markersOf c6Board "p1" : Int) := by decide

/-- Claim C6 (amended): in every history built from the board mutators
without the room-level player removal, the remaining meeples of each player plus
their markers on the board never exceed 7; and every successful PlaceMeeple
decrements the count of the acting player by exactly one and adds exactly one
marker. -/
theorem claim_C6_marker_bound :
    (∀ (t0 : Tile) (rest : List Tile) (ops : List Op),
        (∀ op ∈ ops, isRemoveOp op = false) →
        ∀ pid, remainingOf (Board.run (NewBoard t0 rest) ops) pid
            + (markersOf (Board.run (NewBoard t0 rest) ops) pid : Int) ≤ 7)
      ∧ ∀ (b b1 : Board) (pid : String) (fid : Int),
          b.PlaceMeeple pid fid = Except.ok b1 →
          remainingOf b1 pid = remainingOf b pid - 1
            ∧ markersOf b1 pid = markersOf b pid + 1
            ∧ totalMarkers b1 = totalMarkers b + 1 := by
  constructor
  · intro t0 rest ops hops pid
    exact (run_MarkerInv ops (NewBoard t0 rest) hops (MarkerInv_newBoard t0 rest) pid).1
  · intro b b1 pid fid hok
    obtain ⟨hrem, htot, _⟩ := PlaceMeeple_ok_effects b pid fid b1 hok
    exact ⟨hrem, PlaceMeeple_ok_markers_self b pid fid b1 hok, htot⟩

/-- Witness for claim C6 on a short removal-free history. -/
theorem claim_C6_witness :
    remainingOf (Board.run (NewBoard startingTile []) [Op.addPlayer alice, Op.placeMeeple "p1" 0]) "p1"
        + (markersOf (Board.run (NewBoard startingTile []) [Op.addPlayer alice, Op.placeMeeple "p1" 0]) "p1" : Int)
      ≤ 7 :=
  claim_C6_marker_bound.1 startingTile [] [Op.addPlayer alice, Op.placeMeeple "p1" 0]
    (by decide) "p1"

/-- Claim C7 counterexample: a negative feature index is out of range, yet
PlaceMeeple accepts it — the code checks only the upper bound
`featureID >= len(features)`, so the placement succeeds and commits a marker
with feature index -1. -/
theorem claim_C7_counterexample :
    isOk (c7Board.PlaceMeeple "p1" (-1)) = true
      ∧ totalMarkers (applyExcept c7Board (c7Board.PlaceMeeple "p1" (-1)))
          = totalMarkers c7Board + 1 :=
  ⟨by decide, by decide⟩

/-- For an existing player, PlaceMeeple reduces to its three live checks;
the occupied check can never fire, because the scanned tile is chosen
precisely for having no meeples. -/
theorem PlaceMeeple_eq (b : Board) (pid : String) (fid : Int) (player : Player)
    (hp : b.GetPlayer pid = some player) :
    b.PlaceMeeple pid fid =
      if player.Meeples ≤ 0 then Except.error "no meeples available"
      else
        match findLastTile b.Tiles with
        | none => Except.error "no tile to place meeple on"
        | some (pos, lastTile) =>
          if (lastTile.Tile.Features.length : Int) ≤ fid then
            Except.error "invalid feature ID"
          else
            Except.ok { b with Tiles := addMeepleAt b.Tiles pos ⟨pid, fid, player.Color⟩,
                               Players := decMeeples b.Players pid } := by
  unfold Board.PlaceMeeple
  rw [hp]
  dsimp only
  by_cases hm : player.Meeples ≤ 0
  · rw [if_pos hm, if_pos hm]
  · rw [if_neg hm, if_neg hm]
    cases hf : findLastTile b.Tiles with
    | none => rfl
    | some pr =>
      obtain ⟨pos, lastTile⟩ := pr
      have hempty : lastTile.Meeples = [] := (findLastTile_mem _ _ hf).2
      dsimp only
      rw [hempty]
      simp

/-- Claim C7 (amended): for an existing player, PlaceMeeple fails exactly
when the player has no meeples left, no zero-meeple tile exists, or the
feature index is at least the feature count of the scanned tile — a
negative index is accepted, and the occupied check is unreachable because
the scanned tile carries no meeples; a success appends exactly the new
marker to the scanned tile and decrements the count of the first
matching player, and every failure leaves the board unchanged. -/
theorem claim_C7_PlaceMeeple_conditions :
    ∀ (b : Board) (pid : String) (fid : Int) (player : Player),
      b.GetPlayer pid = some player →
      (isOk (b.PlaceMeeple pid fid) = false ↔
          player.Meeples ≤ 0
            ∨ findLastTile b.Tiles = none
            ∨ ∃ pr, findLastTile b.Tiles = some pr
                ∧ (pr.2.Tile.Features.length : Int) ≤ fid)
        ∧ (∀ pr, findLastTile b.Tiles = some pr → ¬ player.Meeples ≤ 0 →
            ¬ (pr.2.Tile.Features.length : Int) ≤ fid →
            b.PlaceMeeple pid fid = Except.ok
              { b with Tiles := addMeepleAt b.Tiles pr.1 ⟨pid, fid, player.Color⟩,
                       Players := decMeeples b.Players pid })
        ∧ (∀ b1, b.PlaceMeeple pid fid = Except.ok b1 →
            remainingOf b1 pid = remainingOf b pid - 1
              ∧ totalMarkers b1 = totalMarkers b + 1)
        ∧ ∀ e, b.PlaceMeeple pid fid = Except.error e →
            b.stepOp (Op.placeMeeple pid fid) = b := by
  intro b pid fid player hp
  refine ⟨?_, ?_, ?_, ?_⟩
  · rw [PlaceMeeple_eq b pid fid player hp]
    by_cases hm : player.Meeples ≤ 0
    · simp [hm, isOk]
    · cases hf : findLastTile b.Tiles with
      | none => simp [hm, isOk]
      | some pr =>
        obtain ⟨pos, lastTile⟩ := pr
        by_cases hlen : ((pos, lastTile).2.Tile.Features.length : Int) ≤ fid
        · simp only [if_neg hm, ite_false]
          rw [if_pos hlen]
          simp only [isOk, true_iff]
          exact Or.inr (Or.inr ⟨(pos, lastTile), rfl, hlen⟩)
        · simp only [if_neg hm, ite_false]
          rw [if_neg hlen]
          simp only [isOk, Bool.true_eq_false, false_iff]
          rintro (hcon | hcon | ⟨pr2, hpr2, hlen2⟩)
          · exact hm hcon
          · cases hcon
          · injection hpr2 with hpr2
            subst hpr2
            exact hlen hlen2
  · intro pr hf hm hlen
    rw [PlaceMeeple_eq b pid fid player hp, if_neg hm, hf]
    obtain ⟨pos, lastTile⟩ := pr
    dsimp only
    rw [if_neg hlen]
  · intro b1 hok
    obtain ⟨hrem, htot, _⟩ := PlaceMeeple_ok_effects b pid fid b1 hok
    exact ⟨hrem, htot⟩
  · intro e he
    show applyExcept b (b.PlaceMeeple pid fid) = b
    rw [he]
    rfl

/-- Witness for claim C7 at the one-player board with feature index 0. -/
theorem claim_C7_witness :
    isOk (c7Board.PlaceMeeple "p1" 0) = false ↔
      alice.Meeples ≤ 0
        ∨ findLastTile c7Board.Tiles = none
        ∨ ∃ pr, findLastTile c7Board.Tiles = some pr
            ∧ (pr.2.Tile.Features.length : Int) ≤ 0 :=
  (claim_C7_PlaceMeeple_conditions c7Board "p1" 0 alice (by decide)).1

/-- Claim C9 counterexample: Room.AddBot never validates the difficulty
string; an unrecognized value is accepted without error and stored verbatim
on the new bot. -/
theorem claim_C9_counterexample :
    isOkRoom (c9Room.AddBot "botty" "nightmare" "p1" "bot-1") = true
      ∧ (applyExceptRoom c9Room (c9Room.AddBot "botty" "nightmare" "p1" "bot-1")).Bots.map
          (fun pr => pr.2.Difficulty)
        = ["nightmare"] :=
  ⟨by decide, by decide⟩

/-- Claim C9 (amended): AddBot performs no difficulty validation — whenever
its started/creator/capacity/color guards pass it succeeds for every
difficulty string, storing it verbatim on the appended bot; an unrecognized
difficulty silently behaves as the default tier (GetStrategy falls back to
the "easy" answer). -/
theorem claim_C9_AddBot_no_validation :
    (∀ (r : Room) (botName difficulty creatorID botID : String),
        r.GameStarted = false → r.CreatedBy = creatorID →
        (r.Players.length : Int) + (r.Bots.length : Int) < r.MaxPlayers →
        (findFreeColor r.usedColors).isSome = true →
        isOkRoom (r.AddBot botName difficulty creatorID botID) = true
          ∧ (applyExceptRoom r (r.AddBot botName difficulty creatorID botID)).Bots.map
              (fun pr => pr.2.Difficulty)
            = r.Bots.map (fun pr => pr.2.Difficulty) ++ [difficulty])
      ∧ ∀ bot : Bot, bot.Difficulty ≠ "easy" → bot.Difficulty ≠ "medium" →
          bot.Difficulty ≠ "hard" → bot.GetStrategy = "Random valid moves" := by
  constructor
  · intro r botName difficulty creatorID botID hs hc hcap hcol
    obtain ⟨color, hcolor⟩ := Option.isSome_iff_exists.mp hcol
    have heq : r.AddBot botName difficulty creatorID botID
        = Except.ok { r with
            Bots := r.Bots ++ [(botID, (NewBot botID botName color).SetDifficulty difficulty)],
            Board := applyExcept r.Board
              (r.Board.AddPlayer ((NewBot botID botName color).SetDifficulty difficulty).Player) } := by
      unfold Room.AddBot
      rw [if_neg (by rw [hs]; exact Bool.false_ne_true), if_neg (by rw [hc]; simp),
        if_neg (not_le.mpr hcap), hcolor]
    rw [heq]
    refine ⟨rfl, ?_⟩
    show (r.Bots ++ [(botID, (NewBot botID botName color).SetDifficulty difficulty)]).map
        (fun pr => pr.2.Difficulty) = r.Bots.map (fun pr => pr.2.Difficulty) ++ [difficulty]
    rw [List.map_append]
    rfl
  · intro bot h1 h2 h3
    unfold Bot.GetStrategy
    rw [if_neg (by simpa [beq_iff_eq] using h1), if_neg (by simpa [beq_iff_eq] using h2),
      if_neg (by simpa [beq_iff_eq] using h3)]

/-- Witness for claim C9: adding a bot with an unknown difficulty to the
fresh room succeeds and stores the string unchanged. -/
theorem claim_C9_witness :
    isOkRoom (c9Room.AddBot "botty" "weird" "p1" "bot-2") = true
      ∧ (applyExceptRoom c9Room (c9Room.AddBot "botty" "weird" "p1" "bot-2")).Bots.map
          (fun pr => pr.2.Difficulty)
        = c9Room.Bots.map (fun pr => pr.2.Difficulty) ++ ["weird"] :=
  claim_C9_AddBot_no_validation.1 c9Room "botty" "weird" "p1" "bot-2"
    (by decide) (by decide) (by decide) (by decide)

end Carc
